import Mathlib

/-!
Shallow embedding of `new_version/do_mpc/estimator.py` (do-mpc): the
`estimator` base class, the `state_feedback` estimator and the moving
horizon estimator `mhe`, together with theorems checking the
specification's claims about them.

Numeric vectors are modelled as `List ℚ`; extended-real bounds (which
may be `-∞`, as `-np.inf` in the source) as `WithBot ℚ`; CasADi
symbolic expressions are modelled by their shape and their list of
free symbols (`symvar`).
-/

namespace DoMPC

/-- Errors surfaced by the estimator module.  The Python code raises
`AssertionError` or `Exception`; the specification's taxonomy names the
corresponding conditions ConfigurationError, FormulationError, shape
errors, and the unconditional rejection of writes through `vars`. -/
inductive EstErr where
  | shapeError
  | configError
  | formulationError
  | settingNotAllowed
deriving DecidableEq, Repr

/-- Modelled from the spec: the external finalized `Model`
(`do_mpc.model` is not under `src/`).  It exposes the state, input and
algebraic dimensions, the ordered list of declared parameter names
(keys of `model._p`), the state symbols (`symvar(model._x)`), and the
`flags['setup']` finalization flag checked by the estimator. -/
structure Model where
  nx : Nat
  nu : Nat
  nz : Nat
  pNames : List String
  xSyms : List String
  flags_setup : Bool
deriving DecidableEq, Repr

/-- State of the `estimator` base class: the referenced model, the
current estimates `_x0`, `_u0`, `_z0`, `_t0`, and the history kept by
the attached data object. -/
structure estimator where
  model : Model
  x0 : List ℚ
  u0 : List ℚ
  z0 : List ℚ
  t0 : ℚ
  history : List (List ℚ)
deriving DecidableEq, Repr

/-- `estimator.__init__`: asserts `model.flags['setup'] == True`, then
sets `_x0 = model._x(0.0)`, `_u0 = model._u(0.0)`,
`_z0 = model._z(0.0)` and `_t0 = np.array([0.0])` (all-zero numeric
structures of the model's dimensions).  The history is empty upon
creation of the estimator. -/
def estimator.init (model : Model) : Except EstErr estimator :=
  if model.flags_setup then
    .ok { model := model
          x0 := List.replicate model.nx 0
          u0 := List.replicate model.nu 0
          z0 := List.replicate model.nz 0
          t0 := 0
          history := [] }
  else .error .configError

/-- Modelled from the spec: `estimator.reset_history` calls
`self.data.init_storage()`; `do_mpc.data` is not under `src/`, and per
the spec `init_storage()` reinitializes the history store to empty. -/
def estimator.reset_history (e : estimator) : estimator :=
  { e with history := [] }

/-- `estimator.set_initial_state`: asserts
`x0.size == self.model._x.size` (failing with a shape error and
leaving the state untouched otherwise), stores the new current state,
and resets the history when `reset_history` is true. -/
def estimator.set_initial_state (e : estimator) (x0 : List ℚ)
    (reset_history : Bool) : Option EstErr × estimator :=
  if x0.length = e.model.nx then
    let e1 := { e with x0 := x0 }
    (none, if reset_history then estimator.reset_history e1 else e1)
  else (some .shapeError, e)

/-- `state_feedback.make_step(y0)` returns `y0`; nothing of the
estimator state is touched. -/
def state_feedback.make_step (e : estimator) (y0 : List ℚ) :
    List ℚ × estimator := (y0, e)

/-- A concrete finalized model used as witness input. -/
def model0 : Model :=
  { nx := 2, nu := 1, nz := 0, pNames := ["a", "b"],
    xSyms := ["x1", "x2"], flags_setup := true }

/-- A concrete estimator state with a nonempty history, used as
witness input. -/
def est0 : estimator :=
  { model := model0, x0 := [5, 6], u0 := [0], z0 := [], t0 := 0,
    history := [[1, 1]] }

/-- C9: for every input `y`, `state_feedback.make_step y` returns `y`
unchanged and mutates no estimator state. -/
theorem state_feedback_make_step_id (e : estimator) (y0 : List ℚ) :
    state_feedback.make_step e y0 = (y0, e) := rfl

/-- C10: immediately after constructing an estimator over a finalized
model, the stored `x0`, `u0`, `z0` are all-zero vectors of the model's
state, input and algebraic dimensions, and the stored time `t0` is 0. -/
theorem estimator_init_zero (m : Model) (h : m.flags_setup = true) :
    ∃ e, estimator.init m = .ok e ∧
      e.x0 = List.replicate m.nx 0 ∧
      e.u0 = List.replicate m.nu 0 ∧
      e.z0 = List.replicate m.nz 0 ∧
      e.t0 = 0 := by
  refine ⟨{ model := m, x0 := List.replicate m.nx 0,
            u0 := List.replicate m.nu 0, z0 := List.replicate m.nz 0,
            t0 := 0, history := [] }, ?_, rfl, rfl, rfl, rfl⟩
  simp [estimator.init, h]

/-- C10 witness: evaluated at the concrete finalized model `model0`. -/
theorem estimator_init_zero_witness :
    model0.flags_setup = true ∧
      (∃ e, estimator.init model0 = .ok e ∧
        e.x0 = List.replicate model0.nx 0 ∧
        e.u0 = List.replicate model0.nu 0 ∧
        e.z0 = List.replicate model0.nz 0 ∧
        e.t0 = 0) :=
  ⟨rfl, estimator_init_zero model0 rfl⟩

/-- C6: `set_initial_state` with a length-mismatched `x0` fails with a
shape error and leaves the estimator unchanged (for either value of
`reset_history`); with a matching length it succeeds, afterwards the
stored state equals the input, and `reset_history = true` empties the
history while `reset_history = false` preserves it. -/
theorem estimator_set_initial_state_spec (e : estimator)
    (xbad xnew : List ℚ)
    (hbad : xbad.length ≠ e.model.nx) (hok : xnew.length = e.model.nx) :
    estimator.set_initial_state e xbad false = (some .shapeError, e) ∧
    estimator.set_initial_state e xbad true = (some .shapeError, e) ∧
    (estimator.set_initial_state e xnew false).1 = none ∧
    (estimator.set_initial_state e xnew true).1 = none ∧
    (estimator.set_initial_state e xnew false).2.x0 = xnew ∧
    (estimator.set_initial_state e xnew true).2.x0 = xnew ∧
    (estimator.set_initial_state e xnew true).2.history = [] ∧
    (estimator.set_initial_state e xnew false).2.history = e.history := by
  simp [estimator.set_initial_state, estimator.reset_history, hbad, hok]

/-- C6 witness: evaluated on `est0` (state dimension 2, one prior
history entry) with the mismatched input `[1]` and the matching input
`[7, 8]`. -/
theorem estimator_set_initial_state_spec_witness :
    (([1] : List ℚ).length ≠ est0.model.nx ∧
      ([7, 8] : List ℚ).length = est0.model.nx) ∧
    (estimator.set_initial_state est0 [1] false = (some .shapeError, est0) ∧
     estimator.set_initial_state est0 [1] true = (some .shapeError, est0) ∧
     (estimator.set_initial_state est0 [7, 8] false).1 = none ∧
     (estimator.set_initial_state est0 [7, 8] true).1 = none ∧
     (estimator.set_initial_state est0 [7, 8] false).2.x0 = [7, 8] ∧
     (estimator.set_initial_state est0 [7, 8] true).2.x0 = [7, 8] ∧
     (estimator.set_initial_state est0 [7, 8] true).2.history = [] ∧
     (estimator.set_initial_state est0 [7, 8] false).2.history =
       est0.history) :=
  ⟨⟨by decide, by decide⟩,
    estimator_set_initial_state_spec est0 [1] [7, 8] (by decide) (by decide)⟩

/-- `_p_est` of `mhe.__init__`: the entries of `model._p` whose name is
in `p_est_list`, in the model's declared order
(`[entry(p_i, sym=_p[p_i]) for p_i in _p.keys() if p_i in p_est_list]`). -/
def p_est_names (P S : List String) : List String :=
  P.filter (fun p => decide (p ∈ S))

/-- `_p_set` of `mhe.__init__`: the entries of `model._p` whose name is
not in `p_est_list`, in the model's declared order. -/
def p_set_names (P S : List String) : List String :=
  P.filter (fun p => decide (p ∉ S))

/-- Association lookup by entry name (CasADi numeric structures are
indexed by the name of the entry). -/
def alookup {β : Type} (n : String) : List (String × β) → Option β
  | [] => none
  | q :: t => if q.1 = n then some q.2 else alookup n t

/-- `_p_cat_fun`: `Function('p_cat_fun', [_p_est, _p_set], [_p])` —
rebuilds the full parameter vector in the model's declared order from
numeric values for `_p_est` and `_p_set`; each entry of `_p` takes its
value from the partition holding its symbol. -/
def p_cat_fun (P S : List String) (vEst vSet : List ℚ) : List ℚ :=
  P.map (fun p =>
    if p ∈ S then (alookup p ((p_est_names P S).zip vEst)).getD 0
    else (alookup p ((p_set_names P S).zip vSet)).getD 0)

theorem alookup_zip_map (l : List String) (v : String → ℚ) (p : String)
    (h : p ∈ l) : alookup p (l.zip (l.map v)) = some (v p) := by
  induction l with
  | nil => cases h
  | cons a t ih =>
    by_cases hap : a = p
    · subst hap; simp [alookup]
    · have hpt : p ∈ t := by
        rcases List.mem_cons.mp h with h1 | h1
        · exact absurd h1.symm hap
        · exact h1
      simp only [List.map_cons, List.zip_cons_cons, alookup, if_neg hap]
      exact ih hpt

/-- A CasADi symbolic expression, modelled by its shape and its list
of free symbols (`symvar`). -/
structure Expr where
  shape : Nat × Nat
  syms : List String
deriving DecidableEq, Repr

/-- A parameter function as registered by `set_p_fun` (time to a
`p_set`-shaped numeric container). -/
def PFun : Type := ℚ → List ℚ

/-- A measurement-trajectory function as accepted by `set_y_fun`. -/
def YFun : Type := ℚ → List ℚ

/-- One accumulated nonlinear-constraint entry of `nl_cons_list`:
`{expr_name, expr, lb}`. -/
structure NLConsEntry where
  expr_name : String
  expr : Expr
  lb : WithBot ℚ
deriving DecidableEq, Repr

/-- State of the `mhe` class: the referenced model, the parameter
partition built in `__init__`, the lifecycle flags, the registered
evaluators, and the constraint list with the bounds structures built
by `setup()`.  The fields coming from the `do_mpc.optimizer` base
class (which is not under `src/`) are limited to the accumulated
`nl_cons_list`, empty at construction per the spec. -/
structure mhe where
  model : Model
  p_est : List String
  p_set : List String
  flags_setup : Bool
  flags_set_tvp_fun : Bool
  flags_set_objective : Bool
  flags_set_rterm : Bool
  flags_set_p_fun : Bool
  obj_fun : Option Expr
  arrival_cost_fun : Option Expr
  p_fun : Option PFun
  y_fun : Option YFun
  nl_cons_list : List NLConsEntry
  nl_cons_lb : List (String × WithBot ℚ)
  nl_cons_ub : List (String × WithBot ℚ)

/-- `mhe.__init__(model, p_est_list)`: builds `_p_est` and `_p_set` by
filtering the declared parameter names with membership in
`p_est_list`, registers no evaluators, and initializes the flags to
`{setup: False, set_tvp_fun: False, set_objective: False,
set_rterm: True}`. -/
def mhe.init (model : Model) (p_est_list : List String) : mhe :=
  { model := model
    p_est := p_est_names model.pNames p_est_list
    p_set := p_set_names model.pNames p_est_list
    flags_setup := false
    flags_set_tvp_fun := false
    flags_set_objective := false
    flags_set_rterm := true
    flags_set_p_fun := false
    obj_fun := none
    arrival_cost_fun := none
    p_fun := none
    y_fun := none
    nl_cons_list := []
    nl_cons_lb := []
    nl_cons_ub := [] }

/-- C2: the parameter partition built by `mhe.__init__` is complete —
every declared parameter name lies in `p_est` or `p_set`, never in
both, each partition is a sublist of the declared order (order
preserved), and `_p_cat_fun` applied to any numeric assignment of
`(p_est, p_set)` reproduces the full parameter vector in canonical
order. -/
theorem mhe_parameter_partition (model : Model) (S : List String)
    (v : String → ℚ) :
    (∀ p, p ∈ model.pNames ↔
        (p ∈ (mhe.init model S).p_est ∨ p ∈ (mhe.init model S).p_set)) ∧
    (∀ p, ¬(p ∈ (mhe.init model S).p_est ∧ p ∈ (mhe.init model S).p_set)) ∧
    List.Sublist (mhe.init model S).p_est model.pNames ∧
    List.Sublist (mhe.init model S).p_set model.pNames ∧
    p_cat_fun model.pNames S ((mhe.init model S).p_est.map v)
        ((mhe.init model S).p_set.map v) = model.pNames.map v := by
  have hest : (mhe.init model S).p_est = p_est_names model.pNames S := rfl
  have hset : (mhe.init model S).p_set = p_set_names model.pNames S := rfl
  rw [hest, hset]
  refine ⟨?_, ?_, List.filter_sublist _, List.filter_sublist _, ?_⟩
  · intro p
    simp only [p_est_names, p_set_names, List.mem_filter, decide_eq_true_eq]
    by_cases hp : p ∈ S <;> tauto
  · intro p
    simp only [p_est_names, p_set_names, List.mem_filter, decide_eq_true_eq]
    tauto
  · unfold p_cat_fun
    refine List.map_congr_left ?_
    intro p hp
    by_cases hps : p ∈ S
    · have hmem : p ∈ p_est_names model.pNames S := by
        simp [p_est_names, List.mem_filter, hp, hps]
      simp [hps, alookup_zip_map _ v p hmem]
    · have hmem : p ∈ p_set_names model.pNames S := by
        simp [p_set_names, List.mem_filter, hp, hps]
      simp [hps, alookup_zip_map _ v p hmem]

/-- An index into the `vars` indexed property: a bare name, or a name
followed by sub-indices. -/
inductive VarsInd where
  | single (name : String)
  | item (name : String) (sub : List Nat)
deriving DecidableEq, Repr

/-- The `vars.setter` of `mhe`: raises
`Exception('Setting MHE variables is not allowed.')` unconditionally,
for every index and value, touching nothing. -/
def mhe.vars_set (m : mhe) (_ind : VarsInd) (_val : ℚ) :
    Option EstErr × mhe :=
  (some .settingNotAllowed, m)

/-- Free symbols of the four boundary aliases
(`symvar(vertcat(x_0, x_prev, p_0, p_prev))`): `x_0` is `model._x` and
`x_prev = copy.copy(model._x)` shares its SX symbols, so together they
contribute the model's state symbols; `p_0` is `_p_est` and
`p_prev = copy.copy(_p_est)` shares its symbols, contributing the
estimated-parameter symbols. -/
def mhe.arrivalAllowed (m : mhe) : List String :=
  m.model.xSyms ++ m.p_est

/-- `mhe.set_objective(obj, arrival_cost)`: asserts that both
expressions have shape `(1, 1)`, that `setup()` has not run yet, then
stores the stage-cost evaluator `obj_fun`, asserts that the free
symbols of `arrival_cost` are a subset of the free symbols of
`(x_0, x_prev, p_0, p_prev)` (FormulationError otherwise, with the
arrival-cost evaluator and the `set_objective` flag untouched), and on
success stores `arrival_cost_fun` and sets `flags['set_objective']`. -/
def mhe.set_objective (m : mhe) (obj arrival_cost : Expr) :
    Option EstErr × mhe :=
  if obj.shape ≠ (1, 1) then (some .formulationError, m)
  else if arrival_cost.shape ≠ (1, 1) then (some .formulationError, m)
  else if m.flags_setup then (some .configError, m)
  else if arrival_cost.syms.all
      (fun s => decide (s ∈ mhe.arrivalAllowed m)) then
    (none, { m with obj_fun := some obj,
                    arrival_cost_fun := some arrival_cost,
                    flags_set_objective := true })
  else (some .formulationError, { m with obj_fun := some obj })

/-- `mhe.set_p_fun(p_fun)`: stores the function on the instance and
sets `flags['set_p_fun'] = True`. -/
def mhe.set_p_fun (m : mhe) (p_fun : PFun) : mhe :=
  { m with p_fun := some p_fun, flags_set_p_fun := true }

/-- `mhe.set_y_fun(y_fun)`: the body is the bare expression `None` —
nothing is stored and no flag is set. -/
def mhe.set_y_fun (m : mhe) (_y_fun : YFun) : mhe := m

/-- Overwrite, in a CasADi numeric structure, the value of the entry
named `n` (the assignment `struct[name] = value`). -/
def boundsSet (l : List (String × WithBot ℚ)) (n : String)
    (v : WithBot ℚ) : List (String × WithBot ℚ) :=
  l.map (fun q => (q.1, if q.1 = n then v else q.2))

/-- `self._nl_cons(0)`: the upper-bound structure, every entry 0. -/
def nl_cons_ub_built (cs : List NLConsEntry) :
    List (String × WithBot ℚ) :=
  cs.map (fun c => (c.expr_name, (0 : WithBot ℚ)))

/-- `self._nl_cons(-np.inf)` followed by the loop
`for nl_cons_i in self.nl_cons_list:
  self._nl_cons_lb[nl_cons_i['expr_name']] = nl_cons_i['lb']`:
the lower-bound structure, defaulted to `-∞` and then overridden entry
by entry with the declared lower bounds. -/
def nl_cons_lb_built (cs : List NLConsEntry) :
    List (String × WithBot ℚ) :=
  cs.foldl (fun acc c => boundsSet acc c.expr_name c.lb)
    (cs.map (fun c => (c.expr_name, (⊥ : WithBot ℚ))))

/-- Modelled from the spec: `check_validity` is defined in
`do_mpc.optimizer`, which is not under `src/`; per the spec it
validates that all required lifecycle flags are set and fails with
ConfigurationError otherwise. -/
def check_validity (m : mhe) : Bool :=
  m.flags_set_objective && m.flags_set_tvp_fun && m.flags_set_rterm

/-- Modelled from the spec: `setup_mhe` is defined in
`do_mpc.optimizer`, which is not under `src/`; per the spec, setup
"After success, sets flag setup=true". -/
def setup_mhe (m : mhe) : mhe :=
  { m with flags_setup := true }

/-- The constraint-structure construction at the top of `mhe.setup()`:
builds `_nl_cons` with bounds `_nl_cons_ub = 0` and
`_nl_cons_lb = -∞` overridden per entry, before `check_validity` runs. -/
def mhe.buildCons (m : mhe) : mhe :=
  { m with nl_cons_lb := nl_cons_lb_built m.nl_cons_list,
           nl_cons_ub := nl_cons_ub_built m.nl_cons_list }

/-- `mhe.setup()`: builds the constraint structure and its bounds,
then runs `check_validity` (ConfigurationError when a required flag is
missing) and `setup_mhe`. -/
def mhe.setup (m : mhe) : Option EstErr × mhe :=
  if check_validity (mhe.buildCons m) then (none, setup_mhe (mhe.buildCons m))
  else (some .configError, mhe.buildCons m)

/-- `mhe.make_step(y0)`: the body is the bare expression `None` — it
returns `None` and touches nothing. -/
def mhe.make_step (m : mhe) (_y0 : List ℚ) : Option (List ℚ) × mhe :=
  (none, m)

/-- C7: every attempted write through the `mhe.vars` indexed accessor
fails unconditionally, for any index and value, and leaves the
estimator's internal variables unchanged. -/
theorem mhe_vars_setter_rejects (m : mhe) (ind : VarsInd) (val : ℚ) :
    mhe.vars_set m ind val = (some .settingNotAllowed, m) := rfl

/-- C1: `mhe.make_step` is an unimplemented stub — for every
measurement `y0` and every estimator state, it returns `None` (no
refined estimate), updates no estimator state and records nothing. -/
theorem mhe_make_step_stub (m : mhe) (y0 : List ℚ) :
    mhe.make_step m y0 = (none, m) := rfl

/-- A scalar expression with no free symbols. -/
def objScalar : Expr := ⟨(1, 1), []⟩

/-- A scalar arrival-cost expression depending only on the state
symbol `x1` (allowed for the arrival cost). -/
def acGood : Expr := ⟨(1, 1), ["x1"]⟩

/-- A scalar arrival-cost expression depending on a symbol `w` that is
none of `x_0`, `x_prev`, `p_0`, `p_prev`. -/
def acBad : Expr := ⟨(1, 1), ["w"]⟩

/-- A freshly constructed MHE over `model0` estimating parameter `a`. -/
def mhe0 : mhe := mhe.init model0 ["a"]

/-- C3: given two scalar expressions and `setup()` not yet run,
`set_objective` succeeds exactly when every free symbol of the
arrival-cost expression belongs to the free symbols of
`(x_0, x_prev, p_0, p_prev)` (so a constant expression succeeds); any
other outcome under these preconditions is a FormulationError, and on
failure the `set_objective` flag and the arrival-cost evaluator are
left untouched. -/
theorem mhe_set_objective_arrival_domain (m : mhe) (obj ac : Expr)
    (hobj : obj.shape = (1, 1)) (hac : ac.shape = (1, 1))
    (hsetup : m.flags_setup = false) :
    ((mhe.set_objective m obj ac).1 = none ↔
      ∀ s ∈ ac.syms, s ∈ mhe.arrivalAllowed m) ∧
    ((mhe.set_objective m obj ac).1 = none ∨
      (mhe.set_objective m obj ac).1 = some .formulationError) ∧
    ((mhe.set_objective m obj ac).1 ≠ none →
      (mhe.set_objective m obj ac).2.flags_set_objective =
        m.flags_set_objective ∧
      (mhe.set_objective m obj ac).2.arrival_cost_fun =
        m.arrival_cost_fun) := by
  by_cases h : ∀ s ∈ ac.syms, s ∈ mhe.arrivalAllowed m
  · have hb : ac.syms.all (fun s => decide (s ∈ mhe.arrivalAllowed m)) = true := by
      simp only [List.all_eq_true, decide_eq_true_eq]; exact h
    simp [mhe.set_objective, hobj, hac, hsetup, hb]
    exact h
  · have hb : ¬ ac.syms.all (fun s => decide (s ∈ mhe.arrivalAllowed m)) = true := by
      simp only [List.all_eq_true, decide_eq_true_eq]; exact h
    simp [mhe.set_objective, hobj, hac, hsetup, hb, h]

/-- C3 witness: evaluated on `mhe0` with the constant stage cost and
the arrival cost depending only on the state symbol `x1`. -/
theorem mhe_set_objective_arrival_domain_witness :
    (objScalar.shape = (1, 1) ∧ acGood.shape = (1, 1) ∧
      mhe0.flags_setup = false) ∧
    (((mhe.set_objective mhe0 objScalar acGood).1 = none ↔
        ∀ s ∈ acGood.syms, s ∈ mhe.arrivalAllowed mhe0) ∧
     ((mhe.set_objective mhe0 objScalar acGood).1 = none ∨
        (mhe.set_objective mhe0 objScalar acGood).1 =
          some .formulationError) ∧
     ((mhe.set_objective mhe0 objScalar acGood).1 ≠ none →
        (mhe.set_objective mhe0 objScalar acGood).2.flags_set_objective =
          mhe0.flags_set_objective ∧
        (mhe.set_objective mhe0 objScalar acGood).2.arrival_cost_fun =
          mhe0.arrival_cost_fun)) :=
  ⟨⟨rfl, rfl, rfl⟩,
    mhe_set_objective_arrival_domain mhe0 objScalar acGood rfl rfl rfl⟩

/-- A concrete measurement-trajectory function. -/
def yfun0 : YFun := fun _ => [0]

/-- C8 counterexample: `set_y_fun` does not register the supplied
function — afterwards no function is stored on the instance, and the
whole estimator state (in particular every flag) is unchanged. -/
theorem mhe_set_y_fun_noop_cex :
    (mhe.set_y_fun mhe0 yfun0).y_fun ≠ some yfun0 ∧
    mhe.set_y_fun mhe0 yfun0 = mhe0 :=
  ⟨by simp [mhe.set_y_fun, mhe0, mhe.init], rfl⟩

/-- C8 amended: `set_y_fun` is a pure no-op — it stores nothing and
sets no flag, leaving the estimator unchanged — unlike `set_p_fun`,
which stores the supplied function and sets its flag. -/
theorem mhe_set_y_fun_noop (m : mhe) (g : YFun) (f : PFun) :
    mhe.set_y_fun m g = m ∧
    (mhe.set_p_fun m f).p_fun = some f ∧
    (mhe.set_p_fun m f).flags_set_p_fun = true :=
  ⟨rfl, rfl, rfl⟩

/-- C4 counterexample: before `setup()` (the `setup` flag is false),
`set_objective` with two scalar expressions does not always succeed —
with the arrival cost `acBad`, whose free symbol `w` is outside
`{x_0, x_prev, p_0, p_prev}`, the call fails with a FormulationError
and the `set_objective` flag remains false. -/
theorem mhe_set_objective_pre_setup_cex :
    mhe0.flags_setup = false ∧
    objScalar.shape = (1, 1) ∧ acBad.shape = (1, 1) ∧
    (mhe.set_objective mhe0 objScalar acBad).1 = some .formulationError ∧
    (mhe.set_objective mhe0 objScalar acBad).2.flags_set_objective =
      false := by
  refine ⟨rfl, rfl, rfl, ?_, ?_⟩ <;> decide

/-- An MHE with the flags required by `check_validity` set, so that
`setup()` succeeds. -/
def mheReady : mhe :=
  { mhe.init model0 ["a"] with
      flags_set_objective := true, flags_set_tvp_fun := true }

/-- The estimator state after a successful `setup()` on `mheReady`. -/
def mheSetup : mhe := (mhe.setup mheReady).2

/-- C4 amended: after `mhe.setup()` returns successfully the `setup`
flag is true and every subsequent `set_objective` call with scalar
expressions fails with a ConfigurationError; conversely, before
`setup()` is called, `set_objective` with two scalar expressions whose
arrival cost depends only on `x_0`, `x_prev`, `p_0`, `p_prev` succeeds
and sets the `set_objective` flag to true. -/
theorem mhe_setup_gates_set_objective (m msu m2 : mhe) (obj ac : Expr)
    (hsu : mhe.setup m = (none, msu))
    (hobj : obj.shape = (1, 1)) (hac : ac.shape = (1, 1))
    (h2 : m2.flags_setup = false)
    (hdep : ∀ s ∈ ac.syms, s ∈ mhe.arrivalAllowed m2) :
    msu.flags_setup = true ∧
    (mhe.set_objective msu obj ac).1 = some .configError ∧
    (mhe.set_objective m2 obj ac).1 = none ∧
    (mhe.set_objective m2 obj ac).2.flags_set_objective = true := by
  have hflag : msu.flags_setup = true := by
    unfold mhe.setup at hsu
    by_cases hc : check_validity (mhe.buildCons m) = true
    · rw [if_pos hc] at hsu
      have h2' : msu = setup_mhe (mhe.buildCons m) := by
        have := congrArg Prod.snd hsu
        simpa using this.symm
      rw [h2']; rfl
    · rw [if_neg hc] at hsu
      have := congrArg Prod.fst hsu
      simp at this
  have hb : ac.syms.all (fun s => decide (s ∈ mhe.arrivalAllowed m2)) = true := by
    simp only [List.all_eq_true, decide_eq_true_eq]; exact hdep
  refine ⟨hflag, ?_, ?_, ?_⟩
  · simp [mhe.set_objective, hobj, hac, hflag]
  · simp [mhe.set_objective, hobj, hac, h2, hb]
  · simp [mhe.set_objective, hobj, hac, h2, hb]

/-- C4 witness: `mheReady` passes `setup()`, after which
`set_objective` is rejected; the fresh `mhe0` accepts the same
objective pair. -/
theorem mhe_setup_gates_set_objective_witness :
    (mhe.setup mheReady = (none, mheSetup) ∧
      objScalar.shape = (1, 1) ∧ acGood.shape = (1, 1) ∧
      mhe0.flags_setup = false ∧
      (∀ s ∈ acGood.syms, s ∈ mhe.arrivalAllowed mhe0)) ∧
    (mheSetup.flags_setup = true ∧
      (mhe.set_objective mheSetup objScalar acGood).1 =
        some .configError ∧
      (mhe.set_objective mhe0 objScalar acGood).1 = none ∧
      (mhe.set_objective mhe0 objScalar acGood).2.flags_set_objective =
        true) :=
  ⟨⟨rfl, rfl, rfl, rfl, by decide⟩,
    mhe_setup_gates_set_objective mheReady mheSetup mhe0 objScalar acGood
      rfl rfl rfl rfl (by decide)⟩

theorem alookup_cons {β : Type} (n : String) (q : String × β)
    (t : List (String × β)) :
    alookup n (q :: t) = if q.1 = n then some q.2 else alookup n t := rfl

theorem boundsSet_cons (q : String × WithBot ℚ)
    (t : List (String × WithBot ℚ)) (n : String) (v : WithBot ℚ) :
    boundsSet (q :: t) n v =
      (q.1, if q.1 = n then v else q.2) :: boundsSet t n v := rfl

theorem alookup_boundsSet_ne (l : List (String × WithBot ℚ))
    (n k : String) (v : WithBot ℚ) (h : k ≠ n) :
    alookup k (boundsSet l n v) = alookup k l := by
  induction l with
  | nil => rfl
  | cons q t ih =>
    rw [boundsSet_cons, alookup_cons, alookup_cons]
    by_cases hq : q.1 = k
    · have hqn : q.1 ≠ n := by rw [hq]; exact h
      rw [if_pos hq, if_pos hq, if_neg hqn]
    · rw [if_neg hq, if_neg hq, ih]

theorem alookup_boundsSet_self (l : List (String × WithBot ℚ))
    (n : String) (v : WithBot ℚ) (h : n ∈ l.map Prod.fst) :
    alookup n (boundsSet l n v) = some v := by
  induction l with
  | nil => simp at h
  | cons q t ih =>
    rw [boundsSet_cons, alookup_cons]
    by_cases hq : q.1 = n
    · rw [if_pos hq, if_pos hq]
    · rw [if_neg hq]
      apply ih
      simp only [List.map_cons, List.mem_cons] at h
      rcases h with h1 | h1
      · exact absurd h1.symm hq
      · exact h1

theorem boundsSet_keys (l : List (String × WithBot ℚ)) (n : String)
    (v : WithBot ℚ) :
    (boundsSet l n v).map Prod.fst = l.map Prod.fst := by
  induction l with
  | nil => rfl
  | cons q t ih => simp [boundsSet_cons, ih]

theorem alookup_lbFold_notin (cs : List NLConsEntry)
    (acc : List (String × WithBot ℚ)) (n : String)
    (h : ∀ c ∈ cs, c.expr_name ≠ n) :
    alookup n (cs.foldl (fun a c => boundsSet a c.expr_name c.lb) acc) =
      alookup n acc := by
  induction cs generalizing acc with
  | nil => rfl
  | cons c t ih =>
    rw [List.foldl_cons,
      ih _ (fun c' hc' => h c' (List.mem_cons_of_mem _ hc'))]
    exact alookup_boundsSet_ne acc c.expr_name n c.lb
      (Ne.symm (h c (List.mem_cons_self c t)))

theorem alookup_lbFold (cs : List NLConsEntry)
    (acc : List (String × WithBot ℚ))
    (hnd : (cs.map (fun c' => c'.expr_name)).Nodup)
    (hkeys : ∀ c' ∈ cs, c'.expr_name ∈ acc.map Prod.fst) :
    ∀ c ∈ cs,
      alookup c.expr_name
          (cs.foldl (fun a c' => boundsSet a c'.expr_name c'.lb) acc) =
        some c.lb := by
  induction cs generalizing acc with
  | nil => intro c hc; cases hc
  | cons c0 t ih =>
    simp only [List.map_cons, List.nodup_cons] at hnd
    intro c hc
    rw [List.foldl_cons]
    rcases List.mem_cons.mp hc with rfl | hct
    · have hnot : ∀ c' ∈ t, c'.expr_name ≠ c.expr_name := by
        intro c' hc' he
        exact hnd.1 (he ▸ List.mem_map_of_mem _ hc')
      rw [alookup_lbFold_notin t _ c.expr_name hnot]
      exact alookup_boundsSet_self acc c.expr_name c.lb
        (hkeys c (List.mem_cons_self _ _))
    · refine ih _ hnd.2 ?_ c hct
      intro c' hc'
      rw [boundsSet_keys]
      exact hkeys c' (List.mem_cons_of_mem _ hc')

theorem alookup_ub_built (cs : List NLConsEntry) (c : NLConsEntry)
    (h : c ∈ cs) :
    alookup c.expr_name (nl_cons_ub_built cs) = some (0 : WithBot ℚ) := by
  induction cs with
  | nil => cases h
  | cons c0 t ih =>
    simp only [nl_cons_ub_built, List.map_cons] at ih ⊢
    rw [alookup_cons]
    by_cases hq : c0.expr_name = c.expr_name
    · rw [if_pos hq]
    · rw [if_neg hq]
      rcases List.mem_cons.mp h with rfl | h1
      · exact absurd rfl hq
      · exact ih h1

theorem keys_lb_init (cs : List NLConsEntry) :
    ((cs.map (fun c => (c.expr_name, (⊥ : WithBot ℚ)))).map Prod.fst) =
      cs.map (fun c' => c'.expr_name) := by
  induction cs with
  | nil => rfl
  | cons c t ih => simp [ih]

theorem setup_builds_bounds (m : mhe) :
    (mhe.setup m).2.nl_cons_lb = nl_cons_lb_built m.nl_cons_list ∧
    (mhe.setup m).2.nl_cons_ub = nl_cons_ub_built m.nl_cons_list := by
  unfold mhe.setup
  by_cases hc : check_validity (mhe.buildCons m) = true
  · rw [if_pos hc]; exact ⟨rfl, rfl⟩
  · rw [if_neg hc]; exact ⟨rfl, rfl⟩

/-- C5: for every accumulated constraint entry with declared lower
bound `L`, the bounds structures built by `mhe.setup()` hold exactly
`[L, 0]` for that entry: the lower-bound structure, defaulted to `-∞`
and then overridden, yields `L` (finite or `-∞`), and the upper-bound
structure yields `0`.  Entry names are distinct, as required for the
named CasADi structure `struct_SX` to be well formed. -/
theorem mhe_setup_nl_cons_bounds (m : mhe) (c : NLConsEntry)
    (hnd : (m.nl_cons_list.map (fun c' => c'.expr_name)).Nodup)
    (hmem : c ∈ m.nl_cons_list) :
    alookup c.expr_name (mhe.setup m).2.nl_cons_lb = some c.lb ∧
    alookup c.expr_name (mhe.setup m).2.nl_cons_ub =
      some (0 : WithBot ℚ) := by
  obtain ⟨hlb, hub⟩ := setup_builds_bounds m
  rw [hlb, hub]
  constructor
  · unfold nl_cons_lb_built
    refine alookup_lbFold m.nl_cons_list _ hnd ?_ c hmem
    intro c' hc'
    rw [keys_lb_init]
    exact List.mem_map_of_mem _ hc'
  · exact alookup_ub_built _ _ hmem

/-- A trivial scalar constraint expression. -/
def expr0 : Expr := ⟨(1, 1), []⟩

/-- A constraint entry with lower bound `-∞` (the default). -/
def cons1 : NLConsEntry := ⟨"c1", expr0, ⊥⟩

/-- A constraint entry with the finite declared lower bound `-3`. -/
def cons2 : NLConsEntry := ⟨"c2", expr0, ((-3 : ℚ) : WithBot ℚ)⟩

/-- An MHE with two accumulated constraint entries. -/
def mheCons : mhe := { mhe0 with nl_cons_list := [cons1, cons2] }

/-- C5 witness: the entry `cons2`, with finite lower bound `-3`, gets
bounds `[-3, 0]` in the structures built by `setup()` on `mheCons`. -/
theorem mhe_setup_nl_cons_bounds_witness :
    ((mheCons.nl_cons_list.map (fun c' => c'.expr_name)).Nodup ∧
      cons2 ∈ mheCons.nl_cons_list) ∧
    (alookup cons2.expr_name (mhe.setup mheCons).2.nl_cons_lb =
        some cons2.lb ∧
     alookup cons2.expr_name (mhe.setup mheCons).2.nl_cons_ub =
        some (0 : WithBot ℚ)) :=
  ⟨⟨by decide, by decide⟩,
    mhe_setup_nl_cons_bounds mheCons cons2 (by decide) (by decide)⟩

end DoMPC
